import Mathlib

/-!
Shallow embedding of the adaptive-receptive-field denoising loop of
`text2image.py` (function `pipeline_processor.forward`, lines 88-295).

Modelling conventions:
* A module's `forward` attribute is modelled by `Forward`: either the module's
  own original forward computation, or a `ReDilateConvProcessor` wrapper
  carrying the dilation rate and the `activate` flag that were passed to its
  constructor (lines 207-209, 235-237).
* A network instance (`self.unet`, `unet_inflate`, `unet_inflate_vanilla`) is
  an ordered list of named modules with their current `Forward` state; the
  iteration order of `unet.named_modules()` is the list order.
* Python dictionaries keyed by layer name (`dilate_settings`,
  `backup_forwards`) are association lists; `in d.keys()` is `alookup` being
  `some`.
* Tensors are lists of rationals with pointwise arithmetic; `t.chunk(2)`
  splits the batch dimension in half.  `rescale_noise_cfg` is imported from
  `diffusers` (an external collaborator), so it is kept as an uninterpreted
  function parameter.
* Python's `/` on integers is exact division in `ℚ` and raises
  `ZeroDivisionError` on a zero denominator, which we model with `Except`.
-/

namespace ScaleCrafter

/-- The `forward` attribute of a named module: its original forward
computation, or a `ReDilateConvProcessor` wrapping the original (the two
constructor arguments that vary in the source are the dilation rate and the
`activate` flag). -/
inductive Forward where
  | original : Forward
  | patched (rate : ℚ) (activate : Bool) : Forward
deriving DecidableEq

/-- A network instance: ordered `named_modules()` with current forwards. -/
abbrev NetState := List (String × Forward)

/-- The `backup_forwards` dictionary (lines 197, 225). -/
abbrev PatchBackup := List (String × Forward)

/-- First-match association-list lookup; `alookup n d = some v` models
`n in d.keys()` together with `d[n] = v`. -/
def alookup {β : Type} (name : String) : List (String × β) → Option β
  | [] => none
  | (n, b) :: rest => if n = name then some b else alookup name rest

/-- Line 203 / 231: `max(math.ceil(dilate * ((tau - i) / tau)), 2)`.
Python raises `ZeroDivisionError` when `tau = 0`. -/
def progDilate (base : ℚ) (tau i : ℕ) : Except String ℚ :=
  if tau = 0 then .error "ZeroDivisionError"
  else .ok (((max ⌈base * (((tau : ℚ) - (i : ℚ)) / (tau : ℚ))⌉ 2 : ℤ) : ℚ))

/-- The progressive dilation formula as a total function of a positive `tau`
(the value `progDilate` returns when `tau ≠ 0`). -/
def progRate (b : ℚ) (tau i : ℕ) : ℤ :=
  max ⌈b * (((tau : ℚ) - (i : ℚ)) / (tau : ℚ))⌉ 2

/-- Lines 201-205 / 229-233: the dilation rate computed for one configured
layer, starting from its base rate `base = settings[name]`. -/
def layerDilate (progressive : Bool) (inflate_tau : ℕ) (inflate_settings : List String)
    (tau i : ℕ) (name : String) (base : ℚ) : Except String ℚ :=
  match (if progressive then progDilate base tau i else .ok base) with
  | .error e => .error e
  | .ok d => .ok (if i < inflate_tau ∧ name ∈ inflate_settings then d / 2 else d)

/-- Lines 197-209 (and 225-237 with the ndcfg settings): walk
`unet.named_modules()`; for every module whose name is a key of `settings`,
back up its forward and replace it by a `ReDilateConvProcessor` with the
computed rate and `activate = (i < tau)`.  Returns the patched network
together with the `backup_forwards` record; a `ZeroDivisionError` inside the
loop propagates. -/
def patchModules (progressive : Bool) (inflate_tau : ℕ) (inflate_settings : List String)
    (settings : List (String × ℚ)) (tau i : ℕ) :
    NetState → Except String (NetState × PatchBackup)
  | [] => .ok ([], [])
  | (name, f) :: rest =>
    match alookup name settings with
    | none =>
      match patchModules progressive inflate_tau inflate_settings settings tau i rest with
      | .error e => .error e
      | .ok (net2, bk) => .ok ((name, f) :: net2, bk)
    | some base =>
      match layerDilate progressive inflate_tau inflate_settings tau i name base with
      | .error e => .error e
      | .ok d =>
        match patchModules progressive inflate_tau inflate_settings settings tau i rest with
        | .error e => .error e
        | .ok (net2, bk) =>
          .ok ((name, Forward.patched d (decide (i < tau))) :: net2, (name, f) :: bk)

/-- Lines 219-221 / 246-248: walk `unet.named_modules()`; every module whose
name is a key of `backup_forwards` gets its backed-up forward back. -/
def unpatchModules (bk : PatchBackup) : NetState → NetState
  | [] => []
  | (name, f) :: rest =>
    match alookup name bk with
    | some f0 => (name, f0) :: unpatchModules bk rest
    | none => (name, f) :: unpatchModules bk rest

/-- One branch of a step as executed by the source, lines 197-221: patch,
invoke the denoising network, restore.  `netEval` is the external network (it
may raise).  There is no `try/finally` in the source, so an error from
`netEval` propagates with the network still in its patched state; the
`NetState` carried by each outcome is the state of the network instance when
control leaves the branch. -/
def runBranch (netEval : List ℚ → Except String (List ℚ))
    (progressive : Bool) (inflate_tau : ℕ) (inflate_settings : List String)
    (settings : List (String × ℚ)) (tau i : ℕ)
    (net : NetState) (input : List ℚ) :
    Except (String × NetState) (List ℚ × NetState) :=
  match patchModules progressive inflate_tau inflate_settings settings tau i net with
  | .error e => .error (e, net)
  | .ok (patchedNet, bk) =>
    match netEval input with
    | .error e => .error (e, patchedNet)
    | .ok pred => .ok (pred, unpatchModules bk patchedNet)

/-- Line 141: `do_classifier_free_guidance = guidance_scale > 1.0`. -/
def doCFG (guidance_scale : ℚ) : Bool := decide (1 < guidance_scale)

/-- `t.chunk(2)`: split the batch in half. -/
def chunk2 (t : List ℚ) : List ℚ × List ℚ :=
  (t.take (t.length / 2), t.drop (t.length / 2))

/-- Pointwise tensor addition. -/
def tadd (a b : List ℚ) : List ℚ := List.zipWith (· + ·) a b

/-- Pointwise tensor subtraction. -/
def tsub (a b : List ℚ) : List ℚ := List.zipWith (· - ·) a b

/-- Scalar multiple of a tensor. -/
def tscale (s : ℚ) (a : List ℚ) : List ℚ := a.map (s * ·)

/-- Lines 251-257: the classifier-free-guidance combination (executed only
when `do_classifier_free_guidance`).  `useVanilla` is `i < ndcfg_tau`; when it
holds the source uses the first chunk of `noise_pred_vanilla` as the base term
and the chunks of the adapted `noise_pred` inside the difference. -/
def cfgCombine (useVanilla : Bool) (guidance_scale : ℚ)
    (noise_pred noise_pred_vanilla : List ℚ) : List ℚ :=
  let noise_pred_uncond := (chunk2 noise_pred).1
  let noise_pred_text := (chunk2 noise_pred).2
  if useVanilla then
    tadd (chunk2 noise_pred_vanilla).1
      (tscale guidance_scale (tsub noise_pred_text noise_pred_uncond))
  else
    tadd noise_pred_uncond
      (tscale guidance_scale (tsub noise_pred_text noise_pred_uncond))

/-- Lines 250-261: guidance combination followed by the optional
`rescale_noise_cfg` call; `rescaleFn` is the external `rescale_noise_cfg`
(arguments: combined estimate, `noise_pred_text`, `guidance_rescale`). -/
def applyGuidance (docfg useVanilla : Bool) (guidance_scale guidance_rescale : ℚ)
    (rescaleFn : List ℚ → List ℚ → ℚ → List ℚ)
    (noise_pred noise_pred_vanilla : List ℚ) : List ℚ :=
  let np :=
    if docfg then cfgCombine useVanilla guidance_scale noise_pred noise_pred_vanilla
    else noise_pred
  if docfg ∧ 0 < guidance_rescale then rescaleFn np (chunk2 noise_pred).2 guidance_rescale
  else np

/-- The three network instances a run can own (lines 180-189): the base
`self.unet`, `unet_inflate`, and `unet_inflate_vanilla`. -/
inductive Inst where
  | base : Inst
  | inflA : Inst
  | inflV : Inst
deriving DecidableEq

/-- Line 196: `unet = unet_inflate if i < inflate_tau and transform is not
None else self.unet`.  Only the presence of `transform` matters here, so it is
an `Option Unit`. -/
def selectAdaptedInst (transform : Option Unit) (inflate_tau i : ℕ) : Inst :=
  if i < inflate_tau ∧ transform.isSome then .inflA else .base

/-- Line 224: the vanilla branch's instance choice. -/
def selectVanillaInst (transform : Option Unit) (inflate_tau i : ℕ) : Inst :=
  if i < inflate_tau ∧ transform.isSome then .inflV else .base

/-- The static configuration captured by `pipeline_processor` (lines 88-98). -/
structure StepCfg where
  ndcfg_tau : ℕ
  dilate_tau : ℕ
  inflate_tau : ℕ
  dilate_settings : List (String × ℚ)
  inflate_settings : List String
  ndcfg_dilate_settings : List (String × ℚ)
  transform : Option Unit
  progressive : Bool
deriving DecidableEq

/-- A snapshot of the mutable network state during one step: the forwards of
the three instances, plus the list of currently-active `backup_forwards`
records tagged with the instance they were taken from. -/
structure Snap where
  base : NetState
  inflA : NetState
  inflV : NetState
  active : List (Inst × PatchBackup)
deriving DecidableEq

/-- The network state of one instance in a snapshot. -/
def Snap.net (s : Snap) : Inst → NetState
  | .base => s.base
  | .inflA => s.inflA
  | .inflV => s.inflV

/-- Replace the network state of one instance. -/
def Snap.setNet (s : Snap) : Inst → NetState → Snap
  | .base, n => { s with base := n }
  | .inflA, n => { s with inflA := n }
  | .inflV, n => { s with inflV := n }

/-- Number of active patch records held against one instance. -/
def activeCount (inst : Inst) (s : Snap) : ℕ :=
  (s.active.filter (fun p => decide (p.1 = inst))).length

/-- Net-state effect of one branch (patch, invoke, unpatch), as the list of
snapshots after each of the three micro-operations.  The network invocation
itself does not change any forward, so the middle snapshot repeats the first.
Returns the snapshots and the state the branch leaves behind. -/
def branchTrace (progressive : Bool) (inflate_tau : ℕ) (inflate_settings : List String)
    (settings : List (String × ℚ)) (tau i : ℕ) (inst : Inst) (s : Snap) :
    Except String (List Snap × Snap) :=
  match patchModules progressive inflate_tau inflate_settings settings tau i (s.net inst) with
  | .error e => .error e
  | .ok (patchedNet, bk) =>
    let s1 : Snap := { s.setNet inst patchedNet with active := (inst, bk) :: s.active }
    let s3 : Snap := { s1.setNet inst (unpatchModules bk patchedNet) with active := s.active }
    .ok ([s1, s1, s3], s3)

/-- Net-state effect of one full denoising step (lines 196-248): the adapted
branch, then — iff `i < ndcfg_tau` — the vanilla branch.  The result is the
trace of snapshots, starting with the initial one. -/
def stepTrace (cfg : StepCfg) (i : ℕ) (s0 : Snap) : Except String (List Snap) :=
  match branchTrace cfg.progressive cfg.inflate_tau cfg.inflate_settings
      cfg.dilate_settings cfg.dilate_tau i
      (selectAdaptedInst cfg.transform cfg.inflate_tau i) s0 with
  | .error e => .error e
  | .ok (tr1, s1) =>
    if i < cfg.ndcfg_tau then
      match branchTrace cfg.progressive cfg.inflate_tau cfg.inflate_settings
          cfg.ndcfg_dilate_settings cfg.ndcfg_tau i
          (selectVanillaInst cfg.transform cfg.inflate_tau i) s1 with
      | .error e => .error e
      | .ok (tr2, _) => .ok (s0 :: (tr1 ++ tr2))
    else .ok (s0 :: tr1)

/-- The patch configuration handed to the external network for one branch of
one step: for each configured module of `named_modules()` (in order), the
dilation rate and the `activate` flag its processor was built with. -/
def patchMap (progressive : Bool) (inflate_tau : ℕ) (inflate_settings : List String)
    (settings : List (String × ℚ)) (tau i : ℕ) :
    List String → Except String (List (String × ℚ × Bool))
  | [] => .ok []
  | name :: rest =>
    match alookup name settings with
    | none => patchMap progressive inflate_tau inflate_settings settings tau i rest
    | some base =>
      match layerDilate progressive inflate_tau inflate_settings tau i name base with
      | .error e => .error e
      | .ok d =>
        match patchMap progressive inflate_tau inflate_settings settings tau i rest with
        | .error e => .error e
        | .ok r => .ok ((name, d, decide (i < tau)) :: r)

/-- The external collaborators of the loop, as pure (hence deterministic)
functions: `scheduler.scale_model_input`, the denoising network (a function
of the instance, the patch configuration in force, the input batch and the
timestep), `scheduler.step`, `rescale_noise_cfg`, and the ordered module
names of `named_modules()` (shared by all three instances, which are deep
copies of one architecture). -/
structure Env where
  scale_model_input : List ℚ → ℚ → List ℚ
  netEval : Inst → List (String × ℚ × Bool) → List ℚ → ℚ → List ℚ
  sched_step : List ℚ → ℚ → List ℚ → List ℚ
  rescaleFn : List ℚ → List ℚ → ℚ → List ℚ
  netModules : List String

/-- Latent-state effect of one iteration of the denoising loop (lines
191-264): duplicate the latents when doing classifier-free guidance, scale,
run the adapted branch, optionally the vanilla branch, combine, and advance
the latents with `scheduler.step`. -/
def denoiseStep (cfg : StepCfg) (env : Env) (guidance_scale guidance_rescale : ℚ)
    (i : ℕ) (t : ℚ) (latents : List ℚ) : Except String (List ℚ) :=
  let docfg := doCFG guidance_scale
  let lmi := if docfg then latents ++ latents else latents
  let lmi := env.scale_model_input lmi t
  match patchMap cfg.progressive cfg.inflate_tau cfg.inflate_settings
      cfg.dilate_settings cfg.dilate_tau i env.netModules with
  | .error e => .error e
  | .ok pm =>
    let noise_pred := env.netEval (selectAdaptedInst cfg.transform cfg.inflate_tau i) pm lmi t
    if i < cfg.ndcfg_tau then
      match patchMap cfg.progressive cfg.inflate_tau cfg.inflate_settings
          cfg.ndcfg_dilate_settings cfg.ndcfg_tau i env.netModules with
      | .error e => .error e
      | .ok pmv =>
        let noise_pred_vanilla :=
          env.netEval (selectVanillaInst cfg.transform cfg.inflate_tau i) pmv lmi t
        let np := applyGuidance docfg true guidance_scale guidance_rescale env.rescaleFn
          noise_pred noise_pred_vanilla
        .ok (env.sched_step np t latents)
    else
      let np := applyGuidance docfg false guidance_scale guidance_rescale env.rescaleFn
        noise_pred noise_pred
      .ok (env.sched_step np t latents)

/-- Big-step execution of the denoising loop from step `i` over the remaining
timesteps, collecting the latent state after every step (line 264). -/
inductive LoopExec (cfg : StepCfg) (env : Env) (gs gr : ℚ) :
    ℕ → List ℚ → List ℚ → List (List ℚ) → Prop where
  | done (i : ℕ) (lat : List ℚ) : LoopExec cfg env gs gr i [] lat []
  | step (i : ℕ) (t : ℚ) (ts : List ℚ) (lat lat2 : List ℚ) (traj : List (List ℚ)) :
      denoiseStep cfg env gs gr i t lat = .ok lat2 →
      LoopExec cfg env gs gr (i + 1) ts lat2 traj →
      LoopExec cfg env gs gr i (t :: ts) lat (lat2 :: traj)

/-- A one-layer network in its original state, used for concrete runs. -/
def snapW : Snap := ⟨[("conv", Forward.original)], [], [], []⟩

/-- `snapW` while the adapted branch of step 0 holds its patch
(`dilate_settings = [("conv", 4)]`, `dilate_tau = 1`). -/
def snapW1 : Snap :=
  ⟨[("conv", Forward.patched 4 true)], [], [], [(Inst.base, [("conv", Forward.original)])]⟩

/-- `snapW` while the vanilla branch of step 0 holds its patch
(`ndcfg_dilate_settings = [("conv", 2)]`, `ndcfg_tau = 1`). -/
def snapW2 : Snap :=
  ⟨[("conv", Forward.patched 2 true)], [], [], [(Inst.base, [("conv", Forward.original)])]⟩

/-- A concrete configuration exercising both branches at step 0. -/
def cfgW8 : StepCfg :=
  ⟨1, 1, 0, [("conv", 4)], [], [("conv", 2)], none, false⟩

/-- The snapshot trace of step 0 under `cfgW8` from `snapW`. -/
def trW : List Snap := [snapW, snapW1, snapW1, snapW, snapW2, snapW2, snapW]

/-- A configuration with everything disabled, for concrete loop runs. -/
def cfgW : StepCfg := ⟨0, 0, 0, [], [], [], none, false⟩

/-- A concrete deterministic environment for concrete loop runs. -/
def envW : Env := ⟨fun l _ => l, fun _ _ l _ => l, fun n _ _ => n, fun a _ _ => a, ["conv"]⟩

/-! ### Helper lemmas -/

theorem alookup_eq_none {β : Type} (name : String) (l : List (String × β))
    (h : ¬ name ∈ l.map Prod.fst) : alookup name l = none := by
  induction l with
  | nil => rfl
  | cons hd rest ih =>
    obtain ⟨n, b⟩ := hd
    simp only [List.map_cons, List.mem_cons, not_or] at h
    obtain ⟨h1, h2⟩ := h
    have h3 : ¬ n = name := fun hh => h1 hh.symm
    simp only [alookup, if_neg h3, ih h2]

theorem unpatch_irrel (name : String) (f : Forward) (bk : PatchBackup) :
    ∀ pn : NetState, ¬ name ∈ pn.map Prod.fst →
      unpatchModules ((name, f) :: bk) pn = unpatchModules bk pn := by
  intro pn
  induction pn with
  | nil => intro _; rfl
  | cons hd rest ih =>
    obtain ⟨n, g⟩ := hd
    intro h
    simp only [List.map_cons, List.mem_cons, not_or] at h
    obtain ⟨h1, h2⟩ := h
    rcases hnb : alookup n bk with _ | f0 <;>
      simp only [unpatchModules, alookup, if_neg h1, hnb, ih h2]

theorem patch_keys (progressive : Bool) (inflate_tau : ℕ)
    (inflate_settings : List String) (settings : List (String × ℚ)) (tau i : ℕ) :
    ∀ net pn bk,
      patchModules progressive inflate_tau inflate_settings settings tau i net = .ok (pn, bk) →
      pn.map Prod.fst = net.map Prod.fst ∧
        ∀ x, x ∈ bk.map Prod.fst → x ∈ net.map Prod.fst := by
  intro net
  induction net with
  | nil =>
    intro pn bk h
    simp only [patchModules, Except.ok.injEq, Prod.mk.injEq] at h
    obtain ⟨rfl, rfl⟩ := h
    exact ⟨rfl, fun x hx => hx⟩
  | cons hd rest ih =>
    obtain ⟨n, g⟩ := hd
    intro pn bk h
    simp only [patchModules] at h
    rcases hns : alookup n settings with _ | b <;> rw [hns] at h <;> dsimp only at h
    · rcases hr : patchModules progressive inflate_tau inflate_settings settings tau i rest
        with e | ⟨pn2, bk2⟩ <;> rw [hr] at h <;> dsimp only at h
      · cases h
      · simp only [Except.ok.injEq, Prod.mk.injEq] at h
        obtain ⟨rfl, rfl⟩ := h
        obtain ⟨ihk, ihb⟩ := ih pn2 bk2 hr
        refine ⟨by simp [ihk], fun x hx => ?_⟩
        simp only [List.map_cons, List.mem_cons]
        exact Or.inr (ihb x hx)
    · rcases hd2 : layerDilate progressive inflate_tau inflate_settings tau i n b
        with e | d <;> rw [hd2] at h <;> dsimp only at h
      · cases h
      · rcases hr : patchModules progressive inflate_tau inflate_settings settings tau i rest
          with e | ⟨pn2, bk2⟩ <;> rw [hr] at h <;> dsimp only at h
        · cases h
        · simp only [Except.ok.injEq, Prod.mk.injEq] at h
          obtain ⟨rfl, rfl⟩ := h
          obtain ⟨ihk, ihb⟩ := ih pn2 bk2 hr
          refine ⟨by simp [ihk], fun x hx => ?_⟩
          simp only [List.map_cons, List.mem_cons] at hx ⊢
          rcases hx with rfl | hx
          · exact Or.inl rfl
          · exact Or.inr (ihb x hx)

theorem unpatch_patch (progressive : Bool) (inflate_tau : ℕ)
    (inflate_settings : List String) (settings : List (String × ℚ)) (tau i : ℕ) :
    ∀ net pn bk,
      (net.map Prod.fst).Nodup →
      patchModules progressive inflate_tau inflate_settings settings tau i net = .ok (pn, bk) →
      unpatchModules bk pn = net := by
  intro net
  induction net with
  | nil =>
    intro pn bk _ h
    simp only [patchModules, Except.ok.injEq, Prod.mk.injEq] at h
    obtain ⟨rfl, rfl⟩ := h
    rfl
  | cons hd rest ih =>
    obtain ⟨n, g⟩ := hd
    intro pn bk hnd h
    simp only [List.map_cons, List.nodup_cons] at hnd
    obtain ⟨hn, hnd2⟩ := hnd
    simp only [patchModules] at h
    rcases hns : alookup n settings with _ | b <;> rw [hns] at h <;> dsimp only at h
    · rcases hr : patchModules progressive inflate_tau inflate_settings settings tau i rest
        with e | ⟨pn2, bk2⟩ <;> rw [hr] at h <;> dsimp only at h
      · cases h
      · simp only [Except.ok.injEq, Prod.mk.injEq] at h
        obtain ⟨rfl, rfl⟩ := h
        have hbk : alookup n bk2 = none :=
          alookup_eq_none n bk2 (fun hx => hn ((patch_keys _ _ _ _ _ _ rest pn2 bk2 hr).2 n hx))
        simp only [unpatchModules, hbk, ih pn2 bk2 hnd2 hr]
    · rcases hd2 : layerDilate progressive inflate_tau inflate_settings tau i n b
        with e | d <;> rw [hd2] at h <;> dsimp only at h
      · cases h
      · rcases hr : patchModules progressive inflate_tau inflate_settings settings tau i rest
          with e | ⟨pn2, bk2⟩ <;> rw [hr] at h <;> dsimp only at h
        · cases h
        · simp only [Except.ok.injEq, Prod.mk.injEq] at h
          obtain ⟨rfl, rfl⟩ := h
          have hpn2 : ¬ n ∈ pn2.map Prod.fst := by
            rw [(patch_keys _ _ _ _ _ _ rest pn2 bk2 hr).1]
            exact hn
          simp only [unpatchModules, alookup, if_pos rfl]
          rw [unpatch_irrel n g bk2 pn2 hpn2, ih pn2 bk2 hnd2 hr]
          simp

theorem patch_lookup_none (progressive : Bool) (inflate_tau : ℕ)
    (inflate_settings : List String) (settings : List (String × ℚ)) (tau i : ℕ)
    (name : String) (hs : alookup name settings = none) :
    ∀ net pn bk,
      patchModules progressive inflate_tau inflate_settings settings tau i net = .ok (pn, bk) →
      alookup name pn = alookup name net := by
  intro net
  induction net with
  | nil =>
    intro pn bk h
    simp only [patchModules, Except.ok.injEq, Prod.mk.injEq] at h
    obtain ⟨rfl, rfl⟩ := h
    rfl
  | cons hd rest ih =>
    obtain ⟨n, g⟩ := hd
    intro pn bk h
    simp only [patchModules] at h
    rcases hns : alookup n settings with _ | b <;> rw [hns] at h <;> dsimp only at h
    · rcases hr : patchModules progressive inflate_tau inflate_settings settings tau i rest
        with e | ⟨pn2, bk2⟩ <;> rw [hr] at h <;> dsimp only at h
      · cases h
      · simp only [Except.ok.injEq, Prod.mk.injEq] at h
        obtain ⟨rfl, rfl⟩ := h
        simp only [alookup, ih pn2 bk2 hr]
    · rcases hd2 : layerDilate progressive inflate_tau inflate_settings tau i n b
        with e | d <;> rw [hd2] at h <;> dsimp only at h
      · cases h
      · rcases hr : patchModules progressive inflate_tau inflate_settings settings tau i rest
          with e | ⟨pn2, bk2⟩ <;> rw [hr] at h <;> dsimp only at h
        · cases h
        · simp only [Except.ok.injEq, Prod.mk.injEq] at h
          obtain ⟨rfl, rfl⟩ := h
          have hne : ¬ n = name := by
            rintro rfl
            rw [hns] at hs
            cases hs
          simp only [alookup, if_neg hne, ih pn2 bk2 hr]

theorem patch_lookup_some (progressive : Bool) (inflate_tau : ℕ)
    (inflate_settings : List String) (settings : List (String × ℚ)) (tau i : ℕ)
    (name : String) (b : ℚ) (hs : alookup name settings = some b) :
    ∀ net pn bk f,
      alookup name net = some f →
      patchModules progressive inflate_tau inflate_settings settings tau i net = .ok (pn, bk) →
      ∃ d, layerDilate progressive inflate_tau inflate_settings tau i name b = .ok d ∧
        alookup name pn = some (Forward.patched d (decide (i < tau))) := by
  intro net
  induction net with
  | nil =>
    intro pn bk f hf _
    cases hf
  | cons hd rest ih =>
    obtain ⟨n, g⟩ := hd
    intro pn bk f hf h
    simp only [patchModules] at h
    rcases hns : alookup n settings with _ | b2 <;> rw [hns] at h <;> dsimp only at h
    · have hne : ¬ n = name := by
        rintro rfl
        rw [hns] at hs
        cases hs
      rcases hr : patchModules progressive inflate_tau inflate_settings settings tau i rest
        with e | ⟨pn2, bk2⟩ <;> rw [hr] at h <;> dsimp only at h
      · cases h
      · simp only [Except.ok.injEq, Prod.mk.injEq] at h
        obtain ⟨rfl, rfl⟩ := h
        simp only [alookup, if_neg hne] at hf ⊢
        exact ih pn2 bk2 f hf hr
    · rcases hd2 : layerDilate progressive inflate_tau inflate_settings tau i n b2
        with e | d <;> rw [hd2] at h <;> dsimp only at h
      · cases h
      · rcases hr : patchModules progressive inflate_tau inflate_settings settings tau i rest
          with e | ⟨pn2, bk2⟩ <;> rw [hr] at h <;> dsimp only at h
        · cases h
        · simp only [Except.ok.injEq, Prod.mk.injEq] at h
          obtain ⟨rfl, rfl⟩ := h
          by_cases hne : n = name
          · subst hne
            rw [hns] at hs
            obtain rfl : b2 = b := by cases hs; rfl
            refine ⟨d, hd2, ?_⟩
            simp [alookup]
          · simp only [alookup, if_neg hne] at hf ⊢
            exact ih pn2 bk2 f hf hr

theorem progDilate_eval (base : ℚ) (tau i : ℕ) (htau : tau ≠ 0) :
    progDilate base tau i = .ok ((progRate base tau i : ℤ) : ℚ) := by
  simp only [progDilate, progRate, if_neg htau]

theorem layerDilate_eval (progressive : Bool) (inflate_tau : ℕ)
    (inflate_settings : List String) (tau i : ℕ) (name : String) (b : ℚ)
    (hp : progressive = true → tau ≠ 0) :
    layerDilate progressive inflate_tau inflate_settings tau i name b =
      .ok (if i < inflate_tau ∧ name ∈ inflate_settings
        then (if progressive then ((progRate b tau i : ℤ) : ℚ) else b) / 2
        else (if progressive then ((progRate b tau i : ℤ) : ℚ) else b)) := by
  cases progressive with
  | false => simp only [layerDilate, Bool.false_eq_true, if_false]
  | true => simp only [layerDilate, progDilate_eval b tau i (hp rfl), if_true]

theorem setNet_setNet (s : Snap) (inst : Inst) (n m : NetState) :
    (s.setNet inst n).setNet inst m = s.setNet inst m := by
  cases inst <;> rfl

theorem setNet_self (s : Snap) (inst : Inst) :
    s.setNet inst (s.net inst) = s := by
  cases inst <;> rfl

theorem activeCount_le_length (inst : Inst) (s : Snap) :
    activeCount inst s ≤ s.active.length :=
  List.length_filter_le _ _

theorem branchTrace_shape (progressive : Bool) (inflate_tau : ℕ)
    (inflate_settings : List String) (settings : List (String × ℚ)) (tau i : ℕ)
    (inst : Inst) (s : Snap) (tr : List Snap) (s2 : Snap)
    (hnd : ((s.net inst).map Prod.fst).Nodup)
    (h : branchTrace progressive inflate_tau inflate_settings settings tau i inst s =
      .ok (tr, s2)) :
    s2 = s ∧ ∃ a bk2, tr = [a, a, s] ∧ a.active = (inst, bk2) :: s.active := by
  simp only [branchTrace] at h
  rcases hp : patchModules progressive inflate_tau inflate_settings settings tau i (s.net inst)
    with e | ⟨pn, bk⟩ <;> rw [hp] at h <;> dsimp only at h
  · cases h
  · have hu : unpatchModules bk pn = s.net inst :=
      unpatch_patch progressive inflate_tau inflate_settings settings tau i _ pn bk hnd hp
    simp only [Except.ok.injEq, Prod.mk.injEq] at h
    obtain ⟨rfl, rfl⟩ := h
    refine ⟨?_, { s.setNet inst pn with active := (inst, bk) :: s.active }, bk, ?_, rfl⟩
    · rw [hu]
      cases inst <;> rfl
    · rw [hu]
      cases inst <;> rfl

/-! ### Claim theorems -/

/-- C1: the source has no `try/finally` around the network invocation between
patch and unpatch (lines 197-221).  Evaluating the adapted branch at a
concrete failing input — one configured layer `"down.conv"` with base rate 4,
`dilate_tau = 10`, step 0, a network call that raises — shows the error
propagates while the layer's forward is still the installed processor, not
its original forward computation: restoration does not happen on the error
path, contradicting the claim. -/
theorem C1_no_restore_on_error :
    runBranch (fun _ => .error "RuntimeError") false 0 [] [("down.conv", (4 : ℚ))] 10 0
        [("down.conv", Forward.original)] [1] =
      .error ("RuntimeError", [("down.conv", Forward.patched 4 true)]) ∧
    Forward.patched 4 true ≠ Forward.original :=
  ⟨rfl, by simp⟩

/-- C3: with `progressive = True` and `dilate_tau = 0`, the adapted branch's
rate computation (line 203) divides by `dilate_tau` unguarded.  At step 0 with
one configured layer present in the network, the patch loop raises
`ZeroDivisionError` instead of yielding an always-inactive rate, contradicting
the claim that the division is guarded. -/
theorem C3_div_by_zero :
    patchModules true 0 [] [("down.conv", (4 : ℚ))] 0 0 [("down.conv", Forward.original)] =
      .error "ZeroDivisionError" :=
  rfl

/-- C2 counterexample: at a step inside the ndcfg window with guidance
enabled, the source (lines 253-255) computes
`vanilla_uncond + scale * (adapted_cond - adapted_uncond)`, not the claimed
`vanilla_uncond + scale * (vanilla_cond - vanilla_uncond)`.  With adapted
prediction `[0, 0]`, vanilla prediction `[1, 5]` and scale 2 the two values
are `[1]` and `[9]`. -/
theorem C2_counterexample :
    applyGuidance true true 2 0 (fun a _ _ => a) [0, 0] [1, 5] ≠
      tadd (chunk2 [(1 : ℚ), 5]).1
        (tscale 2 (tsub (chunk2 [(1 : ℚ), 5]).2 (chunk2 [(1 : ℚ), 5]).1)) := by
  norm_num [applyGuidance, cfgCombine, chunk2, tadd, tsub, tscale]

/-- C2 amended: for steps in the ndcfg window with classifier-free guidance
enabled (and no rescale), the combined estimate is
`vanilla_uncond + guidance_scale * (adapted_cond - adapted_uncond)`: only the
base unconditional term comes from the vanilla branch, while the guidance
difference uses the adapted branch's chunks. -/
theorem C2_amended (guidance_scale guidance_rescale : ℚ)
    (rescaleFn : List ℚ → List ℚ → ℚ → List ℚ) (noise_pred noise_pred_vanilla : List ℚ)
    (hs : 1 < guidance_scale) (hr : guidance_rescale ≤ 0) :
    applyGuidance (doCFG guidance_scale) true guidance_scale guidance_rescale rescaleFn
        noise_pred noise_pred_vanilla =
      tadd (chunk2 noise_pred_vanilla).1
        (tscale guidance_scale (tsub (chunk2 noise_pred).2 (chunk2 noise_pred).1)) := by
  have hd : doCFG guidance_scale = true := decide_eq_true hs
  rw [applyGuidance, hd]
  simp [cfgCombine, not_lt.mpr hr]

/-- Witness for C2 amended at scale 2, rescale 0, adapted `[0, 0]`, vanilla
`[1, 5]`. -/
theorem C2_amended_witness :
    applyGuidance (doCFG 2) true 2 0 (fun a _ _ => a) [0, 0] [1, 5] =
      tadd (chunk2 [(1 : ℚ), 5]).1
        (tscale 2 (tsub (chunk2 [(0 : ℚ), 0]).2 (chunk2 [(0 : ℚ), 0]).1)) :=
  C2_amended 2 0 (fun a _ _ => a) [0, 0] [1, 5] (by norm_num) le_rfl

/-- C4 counterexample: the claim asserts the progressive rate equals 2 at
`i = tau - 1` for every base rate; with base rate 5 and `tau = 2` the rate at
step `tau - 1 = 1` is `max(ceil(5/2), 2) = 3`. -/
theorem C4_counterexample : progRate 5 2 (2 - 1) ≠ 2 := by
  have h : ⌈(5 : ℚ) / 2⌉ = 3 := by
    rw [Int.ceil_eq_iff]
    norm_num
  norm_num [progRate, h]

/-- C4 amended: the progressive rate `max(ceil(b * (tau - i) / tau), 2)` is
non-increasing in the step index on `[0, tau)` for every base rate, and it
equals 2 at `i = tau - 1` provided the base rate is at most `2 * tau`
(equivalently `ceil(b / tau) ≤ 2`); the unconditional "equals 2" of the
original claim fails for larger base rates. -/
theorem C4_amended (b : ℚ) (tau i j : ℕ) (hij : i ≤ j) (hj : j < tau) :
    progRate b tau j ≤ progRate b tau i ∧
      (b ≤ 2 * (tau : ℚ) → progRate b tau (tau - 1) = 2) := by
  have htau0 : 0 < tau := lt_of_le_of_lt (Nat.zero_le j) hj
  have htau : (0 : ℚ) < (tau : ℚ) := by exact_mod_cast htau0
  constructor
  · rcases le_or_lt 0 b with hb | hb
    · have hsub : ((tau : ℚ) - (j : ℚ)) / tau ≤ ((tau : ℚ) - (i : ℚ)) / tau := by
        have hij2 : (i : ℚ) ≤ (j : ℚ) := by exact_mod_cast hij
        gcongr
      have hmul : b * (((tau : ℚ) - (j : ℚ)) / tau) ≤ b * (((tau : ℚ) - (i : ℚ)) / tau) :=
        mul_le_mul_of_nonneg_left hsub hb
      exact max_le_max (Int.ceil_mono hmul) le_rfl
    · have hx : ∀ k : ℕ, k < tau → ⌈b * (((tau : ℚ) - (k : ℚ)) / tau)⌉ ≤ 2 := by
        intro k hk
        have hk2 : (k : ℚ) ≤ (tau : ℚ) := by exact_mod_cast hk.le
        have hq : (0 : ℚ) ≤ ((tau : ℚ) - (k : ℚ)) / tau := by
          apply div_nonneg _ htau.le
          linarith
        have hbk : b * (((tau : ℚ) - (k : ℚ)) / tau) ≤ 0 := by
          nlinarith [mul_nonneg (neg_nonneg.mpr hb.le) hq]
        exact Int.ceil_le.mpr (by push_cast; linarith)
      unfold progRate
      rw [max_eq_right (hx j hj), max_eq_right (hx i (lt_of_le_of_lt hij hj))]
  · intro hble
    have h1 : ((tau - 1 : ℕ) : ℚ) = (tau : ℚ) - 1 := by
      have h1t : (1 : ℕ) ≤ tau := htau0
      push_cast [Nat.cast_sub h1t]
      ring
    unfold progRate
    rw [h1]
    have h2 : b * (((tau : ℚ) - ((tau : ℚ) - 1)) / tau) = b / tau := by
      field_simp
    rw [h2]
    have h4 : ⌈b / (tau : ℚ)⌉ ≤ 2 := by
      rw [Int.ceil_le]
      push_cast
      rw [div_le_iff₀ htau]
      linarith
    exact max_eq_right h4

/-- Witness for C4 amended at base rate 4, `tau = 10`, steps 0 and 5. -/
theorem C4_amended_witness :
    progRate 4 10 5 ≤ progRate 4 10 0 ∧
      ((4 : ℚ) ≤ 2 * ((10 : ℕ) : ℚ) → progRate 4 10 (10 - 1) = 2) :=
  C4_amended 4 10 0 5 (by norm_num) (by norm_num)

/-- C5: for a step `i < dilate_tau` and a configured layer present in the
network, the forward installed by the patch loop is an active processor
(`activate = i < dilate_tau = true`) whose rate is the base rate when
`progressive` is off and `max(ceil(base * (dilate_tau - i) / dilate_tau), 2)`
when it is on, and that rate is divided by 2 exactly when `i < inflate_tau`
and the layer is inflation-eligible. -/
theorem C5_rate_formula (progressive : Bool) (inflate_tau : ℕ)
    (inflate_settings : List String) (settings : List (String × ℚ)) (tau i : ℕ)
    (net pn : NetState) (bk : PatchBackup) (name : String) (b : ℚ) (f : Forward)
    (hi : i < tau) (hb : alookup name settings = some b) (hf : alookup name net = some f)
    (h : patchModules progressive inflate_tau inflate_settings settings tau i net = .ok (pn, bk)) :
    alookup name pn = some (Forward.patched
      (if i < inflate_tau ∧ name ∈ inflate_settings
        then (if progressive then ((progRate b tau i : ℤ) : ℚ) else b) / 2
        else (if progressive then ((progRate b tau i : ℤ) : ℚ) else b)) true) := by
  obtain ⟨d, hd, hpn⟩ := patch_lookup_some progressive inflate_tau inflate_settings
    settings tau i name b hb net pn bk f hf h
  rw [layerDilate_eval progressive inflate_tau inflate_settings tau i name b
    (fun _ => by omega)] at hd
  obtain rfl : d = _ := by cases hd; rfl
  rw [hpn, decide_eq_true hi]

/-- Witness for C5 at `progressive = false`, one layer, base rate 2,
`dilate_tau = 10`, step 0. -/
theorem C5_rate_formula_witness :
    alookup "conv" [("conv", Forward.patched 2 true)] = some (Forward.patched 2 true) := by
  have h := C5_rate_formula false 0 [] [("conv", 2)] 10 0 [("conv", Forward.original)]
    [("conv", Forward.patched 2 true)] [("conv", Forward.original)] "conv" 2 Forward.original
    (by norm_num) rfl rfl rfl
  simpa using h

/-- C6 counterexample: at step 5 with `dilate_tau = 3` (so the rate is
inactive) the patch loop still replaces the forward of the configured layer
`"conv"` — it installs an inactive processor (`activate = false`) rather than
leaving the forward computation untouched as the claim states. -/
theorem C6_counterexample :
    patchModules false 0 [] [("conv", (4 : ℚ))] 3 5 [("conv", Forward.original)] =
      .ok ([("conv", Forward.patched 4 false)], [("conv", Forward.original)]) ∧
    Forward.patched 4 false ≠ Forward.original :=
  ⟨rfl, by simp⟩

/-- C6 amended: at every step `i` — no restriction on how `i` compares to
`dilate_tau` — a layer absent from the dilation settings keeps exactly the
forward it had, while a configured layer present in the network has its
forward replaced by a processor with `activate = (i < dilate_tau)`; in
particular, for `i ≥ dilate_tau` the configured layer holds an *inactive*
processor (`activate = false`, the behavioral pass-through) rather than being
left untouched. -/
theorem C6_amended (progressive : Bool) (inflate_tau : ℕ)
    (inflate_settings : List String) (settings : List (String × ℚ)) (tau i : ℕ)
    (net pn : NetState) (bk : PatchBackup) (name name2 : String) (b d : ℚ) (f : Forward)
    (h : patchModules progressive inflate_tau inflate_settings settings tau i net = .ok (pn, bk))
    (h1 : alookup name settings = none)
    (h2 : alookup name2 settings = some b) (h3 : alookup name2 net = some f)
    (h5 : layerDilate progressive inflate_tau inflate_settings tau i name2 b = .ok d) :
    alookup name pn = alookup name net ∧
      alookup name2 pn = some (Forward.patched d (decide (i < tau))) ∧
      (tau ≤ i → alookup name2 pn = some (Forward.patched d false)) := by
  obtain ⟨d2, hd2, hpn⟩ := patch_lookup_some progressive inflate_tau inflate_settings
    settings tau i name2 b h2 net pn bk f h3 h
  rw [h5] at hd2
  obtain rfl : d2 = d := by cases hd2; rfl
  refine ⟨patch_lookup_none progressive inflate_tau inflate_settings settings tau i
    name h1 net pn bk h, hpn, fun h4 => ?_⟩
  rw [hpn, decide_eq_false (Nat.not_lt.mpr h4)]

/-- Witness for C6 amended: two-layer network, only `"conv"` configured,
`dilate_tau = 3`, step 5 (so the installed processor is inactive). -/
theorem C6_amended_witness :
    alookup "other" [("conv", Forward.patched 4 false), ("other", Forward.original)] =
        alookup "other" [("conv", Forward.original), ("other", Forward.original)] ∧
      alookup "conv" [("conv", Forward.patched 4 false), ("other", Forward.original)] =
        some (Forward.patched 4 (decide (5 < 3))) ∧
      (3 ≤ 5 → alookup "conv" [("conv", Forward.patched 4 false), ("other", Forward.original)] =
        some (Forward.patched 4 false)) :=
  C6_amended false 0 [] [("conv", 4)] 3 5
    [("conv", Forward.original), ("other", Forward.original)]
    [("conv", Forward.patched 4 false), ("other", Forward.original)]
    [("conv", Forward.original)] "other" "conv" 4 4 Forward.original
    rfl rfl rfl rfl rfl

/-- C7: when `guidance_scale ≤ 1.0`, `do_classifier_free_guidance` is false
(line 141), so the combined estimate is the raw network prediction: no
chunking, no guidance combination, and no rescaling, for any
`guidance_rescale` value and whether or not the step is in the ndcfg
window. -/
theorem C7_no_guidance (guidance_scale guidance_rescale : ℚ) (useVanilla : Bool)
    (rescaleFn : List ℚ → List ℚ → ℚ → List ℚ) (noise_pred noise_pred_vanilla : List ℚ)
    (h : guidance_scale ≤ 1) :
    applyGuidance (doCFG guidance_scale) useVanilla guidance_scale guidance_rescale rescaleFn
      noise_pred noise_pred_vanilla = noise_pred := by
  have hd : doCFG guidance_scale = false := decide_eq_false (not_lt.mpr h)
  rw [applyGuidance, hd]
  simp

/-- Witness for C7 at scale 1, rescale 5, inside the ndcfg window. -/
theorem C7_no_guidance_witness :
    applyGuidance (doCFG 1) true 1 5 (fun a _ _ => a) [3, 4] [7, 8] = [3, 4] :=
  C7_no_guidance 1 5 true (fun a _ _ => a) [3, 4] [7, 8] le_rfl

/-- C10: the halving of a configured layer's rate depends only on
`i < inflate_tau` and membership in the inflation settings — `transform` is
not consulted (it is not even an argument of the patch loop); and with
`transform = None` the network selected for the branch is the base,
non-inflated one, so the base network runs with the halved rate. -/
theorem C10_halving (progressive : Bool) (inflate_tau : ℕ)
    (inflate_settings : List String) (settings : List (String × ℚ)) (tau i : ℕ)
    (net pn : NetState) (bk : PatchBackup) (name : String) (b : ℚ) (f : Forward)
    (hi : i < inflate_tau) (hmem : name ∈ inflate_settings)
    (hb : alookup name settings = some b) (hf : alookup name net = some f)
    (hp : progressive = true → tau ≠ 0)
    (h : patchModules progressive inflate_tau inflate_settings settings tau i net = .ok (pn, bk)) :
    selectAdaptedInst none inflate_tau i = Inst.base ∧
      alookup name pn = some (Forward.patched
        ((if progressive then ((progRate b tau i : ℤ) : ℚ) else b) / 2)
        (decide (i < tau))) := by
  constructor
  · simp [selectAdaptedInst]
  · obtain ⟨d, hd, hpn⟩ := patch_lookup_some progressive inflate_tau inflate_settings
      settings tau i name b hb net pn bk f hf h
    rw [layerDilate_eval progressive inflate_tau inflate_settings tau i name b hp,
      if_pos ⟨hi, hmem⟩] at hd
    obtain rfl : d = _ := by cases hd; rfl
    exact hpn

/-- Witness for C10: `transform` absent, `inflate_tau = 3`, step 0, layer
`"conv"` inflation-eligible with base rate 4 and `dilate_tau = 10`. -/
theorem C10_halving_witness :
    selectAdaptedInst none 3 0 = Inst.base ∧
      alookup "conv" [("conv", Forward.patched ((4 : ℚ) / 2) true)] =
        some (Forward.patched ((if false then ((progRate 4 10 0 : ℤ) : ℚ) else 4) / 2)
          (decide (0 < 10))) :=
  C10_halving false 3 ["conv"] [("conv", 4)] 10 0
    [("conv", Forward.original)] [("conv", Forward.patched ((4 : ℚ) / 2) true)]
    [("conv", Forward.original)] "conv" 4 Forward.original
    (by norm_num) (by simp) rfl rfl (by simp) rfl

/-- C8: along the snapshot trace of one denoising step, every snapshot holds
at most one active patch record per network instance, and the step's final
snapshot is the initial one: every layer patched during the step has been
restored to its original forward before the next step begins. -/
theorem C8_scoped_patch_record (cfg : StepCfg) (i : ℕ) (s0 : Snap) (tr : List Snap)
    (s : Snap) (inst : Inst)
    (h0 : s0.active = [])
    (hA : (s0.base.map Prod.fst).Nodup)
    (hB : (s0.inflA.map Prod.fst).Nodup)
    (hC : (s0.inflV.map Prod.fst).Nodup)
    (h : stepTrace cfg i s0 = .ok tr) (hs : s ∈ tr) :
    activeCount inst s ≤ 1 ∧ tr.getLast? = some s0 := by
  have hnd : ∀ inst2 : Inst, ((s0.net inst2).map Prod.fst).Nodup := by
    intro inst2
    cases inst2 <;> assumption
  have hone : ∀ (a : Snap) (inst2 : Inst) (bk : PatchBackup),
      a.active = (inst2, bk) :: s0.active → activeCount inst a ≤ 1 := by
    intro a inst2 bk ha
    calc activeCount inst a ≤ a.active.length := activeCount_le_length inst a
    _ = 1 := by rw [ha, h0]; rfl
  have hzero : activeCount inst s0 ≤ 1 := by
    calc activeCount inst s0 ≤ s0.active.length := activeCount_le_length inst s0
    _ ≤ 1 := by rw [h0]; norm_num
  simp only [stepTrace] at h
  rcases hb1 : branchTrace cfg.progressive cfg.inflate_tau cfg.inflate_settings
      cfg.dilate_settings cfg.dilate_tau i
      (selectAdaptedInst cfg.transform cfg.inflate_tau i) s0
    with e | ⟨tr1, s1⟩ <;> rw [hb1] at h <;> dsimp only at h
  · cases h
  · obtain ⟨hs1, a1, bk1, htr1, ha1⟩ :=
      branchTrace_shape _ _ _ _ _ _ _ _ _ _ (hnd _) hb1
    rw [hs1, htr1] at h
    by_cases hiv : i < cfg.ndcfg_tau
    · rw [if_pos hiv] at h
      rcases hb2 : branchTrace cfg.progressive cfg.inflate_tau cfg.inflate_settings
          cfg.ndcfg_dilate_settings cfg.ndcfg_tau i
          (selectVanillaInst cfg.transform cfg.inflate_tau i) s0
        with e | ⟨tr2, s2⟩ <;> rw [hb2] at h <;> dsimp only at h
      · cases h
      · obtain ⟨hs2, a2, bk2, htr2, ha2⟩ :=
          branchTrace_shape _ _ _ _ _ _ _ _ _ _ (hnd _) hb2
        rw [htr2] at h
        injection h with h2
        subst h2
        simp only [List.cons_append, List.nil_append, List.mem_cons,
          List.not_mem_nil, or_false] at hs
        constructor
        · rcases hs with he | he | he | he | he | he | he <;> rw [he]
          · exact hzero
          · exact hone a1 _ bk1 ha1
          · exact hone a1 _ bk1 ha1
          · exact hzero
          · exact hone a2 _ bk2 ha2
          · exact hone a2 _ bk2 ha2
          · exact hzero
        · rfl
    · rw [if_neg hiv] at h
      injection h with h2
      subst h2
      simp only [List.mem_cons, List.not_mem_nil, or_false] at hs
      constructor
      · rcases hs with he | he | he | he <;> rw [he]
        · exact hzero
        · exact hone a1 _ bk1 ha1
        · exact hone a1 _ bk1 ha1
        · exact hzero
      · rfl

/-- Witness for C8: the concrete configuration `cfgW8` (both branches active
at step 0) on the one-layer network `snapW`, checked at the initial snapshot
and the base instance. -/
theorem C8_scoped_patch_record_witness :
    activeCount Inst.base snapW ≤ 1 ∧ trW.getLast? = some snapW :=
  C8_scoped_patch_record cfgW8 0 snapW trW snapW Inst.base rfl
    (by simp [snapW]) (by simp [snapW]) (by simp [snapW]) rfl (List.Mem.head _)

/-- C9: the denoising loop is deterministic — any two executions of the loop
from the same step index, timesteps, settings, environment (deterministic
network, scheduler, and rescale function) and initial latents produce
identical latent trajectories, hence bit-identical latents at every step. -/
theorem C9_deterministic (cfg : StepCfg) (env : Env) (gs gr : ℚ) (i : ℕ)
    (ts : List ℚ) (lat : List ℚ) (traj1 traj2 : List (List ℚ))
    (h1 : LoopExec cfg env gs gr i ts lat traj1)
    (h2 : LoopExec cfg env gs gr i ts lat traj2) : traj1 = traj2 := by
  induction h1 generalizing traj2 with
  | done i lat => cases h2; rfl
  | step i t ts lat lat2 traj hstep hrest ih =>
    cases h2 with
    | step _ _ _ _ lat2b trajb hstepb hrestb =>
      rw [hstep] at hstepb
      obtain rfl : lat2 = lat2b := by cases hstepb; rfl
      rw [ih trajb hrestb]

/-- A concrete one-step execution of the loop under `cfgW`/`envW`. -/
theorem loopExecW : LoopExec cfgW envW 1 0 0 [1] [1] [[1]] :=
  LoopExec.step 0 1 [] [1] [1] [] rfl (LoopExec.done 1 [1])

/-- Witness for C9: two identical concrete executions yield the same
trajectory. -/
theorem C9_deterministic_witness : ([[1]] : List (List ℚ)) = [[1]] :=
  C9_deterministic cfgW envW 1 0 0 [1] [1] [[1]] [[1]] loopExecW loopExecW

end ScaleCrafter
